import Mathlib

/-!
Shallow embedding of the gptme conversation core — the conversation log
(`gptme/logmanager.py`), the chat loop and content-inclusion parser
(`gptme/chat.py`) and the name generator (`gptme/util/generate_name.py`) —
together with theorems settling the specification's claims about them.

Python strings are modelled as `String` (or `List Char` where character-level
reasoning is needed), the filesystem as explicit function parameters, raised
exceptions as `Except`/`Option`, and `random.choice` as universally
quantified indices.
-/

deriving instance DecidableEq for Except

namespace Gptme

/-- The `role` field of a message: one of the strings
`"system" | "user" | "assistant"` (spec section 3). -/
inductive Role
  | system
  | user
  | assistant
deriving DecidableEq

/-- Model of `gptme.message.Message` (`message.py` is not under `src/`; the
field list follows spec section 3 and the call sites in `logmanager.py` and
`chat.py`): `role`, `content`, `pinned`, `hide`, `quiet`, `timestamp`
(an ISO string), `files` (paths as strings). -/
structure Message where
  role : Role
  content : String
  pinned : Bool := false
  hide : Bool := false
  quiet : Bool := false
  timestamp : String := ""
  files : List String := []
deriving DecidableEq

/-! ## `LogManager.undo` (logmanager.py lines 67-88) -/

/-- `undid.content.startswith(".undo")` from `LogManager.undo`. -/
def isUndoCmd (m : Message) : Bool := ".undo".data.isPrefixOf m.content.data

/-- The prelude of `LogManager.undo`: if the last message's content starts
with `.undo`, pop it (`if undid and undid.content.startswith(".undo"): self.pop()`). -/
def dropUndoSentinel (log : List Message) : List Message :=
  match log.getLast? with
  | none => log
  | some m => if isUndoCmd m then log.dropLast else log

/-- The loop `for _ in range(n): undid = self.pop()` of `LogManager.undo`:
`list.pop()` on an empty list raises `IndexError`, modelled as `Except.error`. -/
def popN : Nat → List Message → Except Unit (List Message)
  | 0, l => Except.ok l
  | n + 1, l => if l.isEmpty then Except.error () else popN n l.dropLast

/-- `LogManager.undo(n)` acting on the in-memory message list.  The returned
`Bool` records whether the `"Nothing to undo."` notice was printed (the
early-return path when the log is empty after discarding the sentinel). -/
def undo (n : Nat) (log : List Message) : Except Unit (List Message × Bool) :=
  let stripped := dropUndoSentinel log
  if stripped.isEmpty then Except.ok (stripped, true)
  else (popN n stripped).map fun l => (l, false)

/-! ## `LogManager` state: in-memory list plus backing file
(`append`/`write`/`undo`/`fork`, logmanager.py lines 50-62, 67-88, 141-144).
For these claims the backing file's contents are modelled as the list of
messages it holds (`write_log` overwrite mode serialises exactly the list,
see the serialisation section below). -/

/-- Filesystem model for the manager-level claims: contents of each path
(paths as component lists), `none` when the file does not exist. -/
def FS : Type := List String → Option (List Message)

/-- In-memory `LogManager` state: `self.log` and `self.logfile`. -/
structure LMState where
  log : List Message
  logfile : List String
deriving DecidableEq

/-- `LogManager.write` (via list-mode `write_log`): overwrite the backing
file with the whole in-memory sequence. -/
def writeFS (s : LMState) (fs : FS) : FS :=
  fun p => if p = s.logfile then some s.log else fs p

/-- `LogManager.append`: append to the in-memory list, then `self.write()`. -/
def appendLM (m : Message) (s : LMState) (fs : FS) : LMState × FS :=
  let s2 : LMState := { log := s.log ++ [m], logfile := s.logfile }
  (s2, writeFS s2 fs)

/-- `LogManager.undo` at the manager level: it only mutates `self.log`
(no call to `self.write()` anywhere in its body). -/
def undoLM (n : Nat) (s : LMState) (fs : FS) : Except Unit (LMState × FS) :=
  (undo n s.log).map fun r => ({ log := r.1, logfile := s.logfile }, fs)

/-- `LogManager.fork(name)`: `self.write()` (to the *current* `self.logfile`),
then `self.logfile = self.logfile.parent / f"{name}.log"`. -/
def forkLM (name : String) (s : LMState) (fs : FS) : LMState × FS :=
  let fs2 := writeFS s fs
  ({ log := s.log, logfile := s.logfile.dropLast ++ [name ++ ".log"] }, fs2)

/-! ## Content-inclusion parser (`chat.py` lines 299-470)

External collaborators (`Path.cwd()` listing, file existence/contents,
`action_descriptions`, `GPTME_FRESH_CONTEXT`, `has_tool("browser")`,
`read_url`, `urllib.parse.urlparse`, workspace-relative normalisation) are
modelled as an explicit environment. -/

/-- The backtick character (written by code point to keep the source free of
raw backticks). -/
def bt : Char := '\x60'

/-- Environment of `_include_paths` / `_parse_prompt`:
* `existsFile p`  — `Path(p).exists() and Path(p).is_file()`;
* `textFile p`    — `some contents` when `Path(p).read_text()` succeeds,
  `none` when it raises `UnicodeDecodeError` (binary file);
* `cwd`           — names in the current directory listing;
* `commands`      — `action_descriptions.keys()`;
* `fresh`         — `use_fresh_context` (`GPTME_FRESH_CONTEXT`);
* `browser`       — `has_tool("browser")`;
* `urlRead u`     — `some text` when `read_url(u)` succeeds, else `none`;
* `isUrl w`       — modelled from the spec: the URL-scheme check
  (`urlparse(w)` yields a non-empty scheme and netloc);
* `home`          — the home directory for `expanduser`;
* `normFile`      — modelled from the spec: workspace-relative path
  normalisation of collected file references (`expanduser` /
  `absolute().relative_to(workspace)`); no claim depends on its value. -/
structure Env where
  existsFile : String → Bool
  textFile : String → Option String
  cwd : List String
  commands : List String
  fresh : Bool
  browser : Bool
  urlRead : String → Option String
  isUrl : String → Bool
  home : String
  normFile : String → String

/-- `Path(p).expanduser()`: expand a leading `~` to the home directory. -/
def expanduser (env : Env) (p : String) : String :=
  if "~/".data.isPrefixOf p.data then env.home ++ p.drop 1
  else if p = "~" then env.home else p

/-- ```` f"```{tag}\n{content}\n```" ```` — the fenced code block built by
`_parse_prompt`. -/
def codeblock (tag content : String) : String :=
  "\x60\x60\x60" ++ tag ++ "\n" ++ content ++ "\n" ++ "\x60\x60\x60"

/-- `any(prompt.startswith(command) for command in [f"/{cmd}" for cmd in
action_descriptions.keys()])` — the early command exit of `_parse_prompt`
and `_parse_prompt_files`. -/
def isCommandPrefixed (env : Env) (prompt : String) : Bool :=
  env.commands.any fun c => ("/" ++ c).data.isPrefixOf prompt.data

/-- Python `str.split()` (split on whitespace runs, dropping empty pieces),
used for the multi-word phase of `_parse_prompt`. -/
def pySplit (s : String) : List String :=
  (s.split Char.isWhitespace).filter fun w => w ≠ ""

/-- Truthiness of `_parse_prompt`'s result in
`if not use_fresh_context and (contents := _parse_prompt(word))`:
Python's `None` and `""` are both falsy. -/
def truthy : Option String → Bool
  | none => false
  | some s => !(s == "")

/-- `_parse_prompt` (chat.py lines 370-435).  The `fuel` argument makes the
single level of recursion through the multi-word phase structural; callers
pass `1`, and the recursive calls on existing files return in the direct
branch without consuming fuel. -/
def _parse_prompt (env : Env) : Nat → String → Option String
  | fuel, prompt =>
    if isCommandPrefixed env prompt then none
    else
      let f := expanduser env prompt
      if env.existsFile f then
        match env.textFile f with
        | some c => some (codeblock prompt c)
        | none => none
      else
        match fuel with
        | 0 => none
        | fuel + 1 =>
          let words := pySplit prompt
          let paths := words.filter fun w => env.existsFile (expanduser env w)
          let urls := words.filter fun w =>
            !env.existsFile (expanduser env w) && env.isUrl w
          let head := if paths.isEmpty && urls.isEmpty then "" else "\n\n"
          let pathPart := String.join (paths.map fun p =>
            (_parse_prompt env fuel p).getD "")
          let urlPart :=
            if env.browser then
              String.join (urls.map fun u =>
                match env.urlRead u with
                | some c => codeblock u c
                | none => "")
            else ""
          some (head ++ pathPart ++ urlPart)

/-- `Path.suffix[1:].lower()` of the final path component (empty when the
name has no extension, Python-style: a lone leading dot does not count). -/
def lowerExt (p : String) : String :=
  let name := (p.data.reverse.takeWhile fun c => c ≠ '/').reverse
  let revName := name.reverse
  let ext := revName.takeWhile fun c => c ≠ '.'
  if ext.length = revName.length then ""
  else if ext.isEmpty then ""
  else if (revName.drop (ext.length + 1)).isEmpty then ""
  else String.mk (ext.reverse.map Char.toLower)

/-- `_parse_prompt_files` (chat.py lines 438-469): a path that reads as text,
or a supported binary format (image/PDF extension), is returned for
`msg.files`. -/
def _parse_prompt_files (env : Env) (prompt : String) : Option String :=
  if isCommandPrefixed env prompt then none
  else
    let p := expanduser env prompt
    if !env.existsFile p then none
    else
      match env.textFile p with
      | some _ => some p
      | none =>
        if ["png", "jpg", "jpeg", "gif", "pdf"].contains (lowerExt p) then some p
        else none

/-! ### Tokenisation of the message content (chat.py lines 324-344) -/

/-- Does `"\n" + "```"` occur in the list?  Used to decide whether the
non-greedy codeblock regex `r"```.*?\n```"` can match from a given opening. -/
def hasClose : List Char → Bool
  | a :: b :: c :: d :: rest =>
    (a = '\n' && b = bt && c = bt && d = bt) || hasClose (b :: c :: d :: rest)
  | _ => false

/-- `re.sub(r"```.*?\n```", "", content, flags=re.DOTALL)`: scan left to
right; at an opening ``` with a later close, drop through the earliest
`\n````; otherwise keep the character.  `inside = true` is the dropping
state (entered only when a close exists). -/
def stripCodeblocks : Bool → List Char → List Char
  | false, b1 :: b2 :: b3 :: rest =>
    if b1 = bt && b2 = bt && b3 = bt && hasClose rest then
      stripCodeblocks true rest
    else
      b1 :: stripCodeblocks false (b2 :: b3 :: rest)
  | false, l => l
  | true, a :: b :: c :: d :: rest =>
    if a = '\n' && b = bt && c = bt && d = bt then stripCodeblocks false rest
    else stripCodeblocks true (b :: c :: d :: rest)
  | true, _ => []

/-- ``re.split(r"[\s`]", ...)``: split on every single whitespace or backtick
character, keeping empty pieces (they are skipped later). -/
def splitTok : List Char → List (List Char)
  | [] => [[]]
  | c :: rest =>
    if c.isWhitespace || c = bt then [] :: splitTok rest
    else
      match splitTok rest with
      | [] => [[c]]
      | w :: ws => (c :: w) :: ws

/-- ``word.strip("`")``: remove backticks from both ends. -/
def stripBackticks (w : List Char) : List Char :=
  ((w.dropWhile fun c => c = bt).reverse.dropWhile fun c => c = bt).reverse

/-- `word.rstrip("?")`: remove every trailing question mark. -/
def rstripQs (w : List Char) : List Char :=
  (w.reverse.dropWhile fun c => c = '?').reverse

/-- Per-token normalisation of `_include_paths`:
``word = word.strip("`")`` then `word = word.rstrip("?")`. -/
def normToken (w : List Char) : List Char := rstripQs (stripBackticks w)

/-- The token stream of `_include_paths`: strip codeblocks, split on
whitespace/backticks, normalise each token, skip empties. -/
def tokenize (content : String) : List String :=
  ((splitTok (stripCodeblocks false content.data)).map normToken).filterMap
    fun w => if w.isEmpty then none else some (String.mk w)

/-- `word.split("/", 1)[0]`: the first path segment of a token. -/
def firstSeg (w : String) : String := String.mk (w.data.takeWhile fun c => c ≠ '/')

/-- The candidate test of `_include_paths` (chat.py lines 336-344): starts
with `/`, `~/`, `./` or `http`, or its first segment names an entry of the
current directory. -/
def isCandidate (env : Env) (w : String) : Bool :=
  "/".data.isPrefixOf w.data || "~/".data.isPrefixOf w.data ||
  "./".data.isPrefixOf w.data || "http".data.isPrefixOf w.data ||
  env.cwd.any fun f => firstSeg w == f

/-- The per-token body of `_include_paths`' loop: accumulate inlined text
(`append_msg`) and collected file references (`files`). -/
def inclStep (env : Env) (acc : String × List String) (w : String) :
    String × List String :=
  if isCandidate env w then
    if !env.fresh && truthy (_parse_prompt env 1 w) then
      (acc.1 ++ "\n\n" ++ (_parse_prompt env 1 w).getD "", acc.2)
    else
      match _parse_prompt_files env w with
      | some f => (acc.1, acc.2 ++ [env.normFile f])
      | none => acc
  else acc

/-- `_include_paths` (chat.py lines 299-367).  The source `assert
msg.role == "user"` is carried as a hypothesis by the theorems about it. -/
def _include_paths (env : Env) (m : Message) : Message :=
  let acc := (tokenize m.content).foldl (inclStep env) ("", [])
  let m2 := if acc.2.isEmpty then m else { m with files := m.files ++ acc.2 }
  if acc.1 = "" then m2 else { m2 with content := m2.content ++ acc.1 }

/-! ## The chat loop step (`chat.py` lines 112-243)

The model backend (`reply`), context preparation (`prepare_messages`, whose
reduce/limit internals live outside `src/`) and the tool engine
(`execute_msg`) are external collaborators, passed as function parameters;
a `KeyboardInterrupt` raised inside the model call is `Except.error ()`. -/

/-- The input-request condition of `step` (chat.py lines 204-211): ask the
user for input iff the log is empty, or the last message's role is
`assistant`, or its content is `"Interrupted"`, or it is pinned, or no
`user`-role message occurs anywhere in the log. -/
def stepAsksForInput (log : List Message) : Bool :=
  match log.getLast? with
  | none => true
  | some m =>
    m.role == Role.assistant || m.content == "Interrupted" || m.pinned ||
    !(log.any fun x => x.role == Role.user)

/-- The sentinel appended on interruption:
`Message("system", "Interrupted")`. -/
def interruptedMsg : Message := { role := Role.system, content := "Interrupted" }

/-- The generation phase of `step` (chat.py lines 218-243): prepare the
context, call the model; on success yield the response re-marked quiet and
the tool-execution results; on `KeyboardInterrupt` yield the sentinel. -/
def stepGen (prepare : List Message → List Message)
    (reply : List Message → Except Unit Message)
    (toolExec : Message → List Message) (log : List Message) : List Message :=
  match reply (prepare log) with
  | Except.error _ => [interruptedMsg]
  | Except.ok resp => { resp with quiet := true } :: toolExec resp

/-- `step` (chat.py lines 190-243) as the list of messages it yields: if
input is requested, the inquiry passes through `_include_paths` and is
yielded and appended before generation runs on the extended log. -/
def step (env : Env) (prepare : List Message → List Message)
    (reply : List Message → Except Unit Message)
    (toolExec : Message → List Message) (inquiry : String)
    (log : List Message) : List Message :=
  if stepAsksForInput log then
    let m := _include_paths env { role := Role.user, content := inquiry, quiet := true }
    m :: stepGen prepare reply toolExec (log ++ [m])
  else
    stepGen prepare reply toolExec log

/-- One iteration of the response loop in `chat` (chat.py lines 125-165):
`response_msgs = list(step(...))`, each appended to the manager's log.  The
loop's continuation check (re-entering generation while the last assistant
message still has a runnable tool) starts a new cycle, and the re-entrant
`execute_cmd` dispatch on appended user-role results never fires on the
interrupted path (the sentinel has role `system`); both are outside this
single-cycle model. -/
def cycleOnce (env : Env) (prepare : List Message → List Message)
    (reply : List Message → Except Unit Message)
    (toolExec : Message → List Message) (inquiry : String)
    (log : List Message) : List Message :=
  log ++ step env prepare reply toolExec inquiry log

/-- The claim's wording of "the last message already demands a response"
(C1 as stated): last role is `user`, or content is `"Interrupted"`, or
pinned, or no user message exists in the log. -/
def lastDemandsResponseClaim (log : List Message) : Bool :=
  match log.getLast? with
  | none => false
  | some m =>
    m.role == Role.user || m.content == "Interrupted" || m.pinned ||
    !(log.any fun x => x.role == Role.user)

/-- The amended demands-a-response predicate, matching the source: the last
message exists, its role is not `assistant`, its content is not
`"Interrupted"`, it is not pinned, and some `user`-role message occurs in
the log. -/
def lastDemandsResponse (log : List Message) : Bool :=
  match log.getLast? with
  | none => false
  | some m =>
    (m.role == Role.user || m.role == Role.system) &&
    !(m.content == "Interrupted") && !m.pinned &&
    (log.any fun x => x.role == Role.user)

/-! ## Name generation (`util/generate_name.py`) -/

/-- The `actions` word list (with its duplicated `"sneaking"`). -/
def actions : List (List Char) :=
  ["running", "jumping", "walking", "skipping", "hopping", "flying",
   "swimming", "crawling", "sneaking", "sprinting", "sneaking", "dancing",
   "singing", "laughing"].map String.data

/-- The `adjectives` word list. -/
def adjectives : List (List Char) :=
  ["funny", "happy", "sad", "angry", "silly", "crazy", "sneaky", "sleepy",
   "hungry", "red", "blue", "green", "pink", "purple", "yellow",
   "orange"].map String.data

/-- The `nouns` word list. -/
def nouns : List (List Char) :=
  ["cat", "dog", "rat", "mouse", "fish", "elephant", "dinosaur", "bird",
   "pelican", "dragon", "unicorn", "mermaid", "monster", "alien", "robot",
   "whale", "shark", "walrus", "octopus", "squid", "jellyfish", "starfish",
   "penguin", "seal"].map String.data

/-- `generate_name()`: `f"{action}-{adjective}-{noun}"`, with
`random.choice` modelled as universally quantified indices. -/
def generate_name (i : Fin actions.length) (j : Fin adjectives.length)
    (k : Fin nouns.length) : List Char :=
  actions.get i ++ '-' :: (adjectives.get j ++ '-' :: nouns.get k)

/-- Python `str.split("-")`: split at every dash, keeping empty pieces
(`"".split("-") == [""]`). -/
def splitDash : List Char → List (List Char)
  | [] => [[]]
  | c :: rest =>
    if c = '-' then [] :: splitDash rest
    else
      match splitDash rest with
      | [] => [[c]]
      | w :: ws => (c :: w) :: ws

/-- `is_generated_name(name)`: exactly two dashes and every dash-separated
word belongs to `actions + adjectives + nouns`. -/
def is_generated_name (name : List Char) : Bool :=
  name.count '-' == 2 &&
  (splitDash name).all fun w => decide (w ∈ actions ++ adjectives ++ nouns)

/-! ## Log-file serialisation (`write_log`, logmanager.py lines 153-171, and
`LogManager.load`, lines 106-124)

`write_log` writes `json.dumps(msg.to_dict())` per line; `load` rebuilds each
line with `Message(**json.loads(line))`.  `Message.to_dict` and the JSON
codec are not under `src/`, so the per-record encoding below is modelled
from the spec: one JSON object per line whose fields correspond 1:1 to the
`Message` attributes of spec section 3, with the string escapes (`\"`,
`\\`, `\n`) that keep every record on a single line. -/

/-- JSON string escaping of one character (modelled from the spec: the JSON
record encoding; only the escapes relevant to newline-safety and quoting are
produced). -/
def escChar (c : Char) : List Char :=
  if c = '"' then ['\\', '"']
  else if c = '\\' then ['\\', '\\']
  else if c = '\n' then ['\\', 'n']
  else [c]

/-- JSON string escaping of a whole string. -/
def escapeStr : List Char → List Char
  | [] => []
  | c :: s => escChar c ++ escapeStr s

/-- Inverse of `escChar` on the character after a backslash. -/
def unescChar (c : Char) : Option Char :=
  if c = '"' then some '"'
  else if c = '\\' then some '\\'
  else if c = 'n' then some '\n'
  else none

/-- Parse a JSON string body up to and including its closing quote,
unescaping as it goes; returns the decoded string and the rest of the
input.  Raw newlines are rejected (they cannot occur inside a one-line
record). -/
def parseQuotedAux : List Char → Option (List Char × List Char)
  | [] => none
  | c :: rest =>
    if c = '"' then some ([], rest)
    else if c = '\\' then
      match rest with
      | [] => none
      | d :: rest2 =>
        match unescChar d with
        | none => none
        | some e =>
          match parseQuotedAux rest2 with
          | none => none
          | some (s, r) => some (e :: s, r)
    else if c = '\n' then none
    else
      match parseQuotedAux rest with
      | none => none
      | some (s, r) => some (c :: s, r)

/-- Consume an expected literal prefix. -/
def dropLit : List Char → List Char → Option (List Char)
  | [], l => some l
  | _ :: _, [] => none
  | c :: cs, d :: l => if c = d then dropLit cs l else none

/-- The serialised `role` field value. -/
def roleStr : Role → List Char
  | Role.system => "system".data
  | Role.user => "user".data
  | Role.assistant => "assistant".data

/-- Parse a `role` value (the name only; the closing quote belongs to the
following literal). -/
def parseRole (l : List Char) : Option (Role × List Char) :=
  match dropLit "system".data l with
  | some r => some (Role.system, r)
  | none =>
    match dropLit "user".data l with
    | some r => some (Role.user, r)
    | none =>
      match dropLit "assistant".data l with
      | some r => some (Role.assistant, r)
      | none => none

/-- The serialised boolean field values. -/
def boolStr : Bool → List Char
  | true => "true".data
  | false => "false".data

/-- Parse a JSON boolean. -/
def parseBool (l : List Char) : Option (Bool × List Char) :=
  match dropLit "true".data l with
  | some r => some (true, r)
  | none =>
    match dropLit "false".data l with
    | some r => some (false, r)
    | none => none

/-- Print the body of the `files` JSON array, including the closing `]`. -/
def printFilesBody : List (List Char) → List Char
  | [] => [']']
  | f :: fs =>
    '"' :: (escapeStr f ++
      ('"' :: ((if fs.isEmpty then [] else [',']) ++ printFilesBody fs)))

/-- Parse the body of the `files` JSON array (after the opening `[`),
including the closing `]`.  The fuel bounds the number of elements; callers
pass the input length. -/
def parseFilesAux : Nat → List Char → Option (List (List Char) × List Char)
  | _, ']' :: rest => some ([], rest)
  | fuel + 1, '"' :: rest =>
    (match parseQuotedAux rest with
     | none => none
     | some (s, r) =>
       match r with
       | ',' :: r2 =>
         match parseFilesAux fuel r2 with
         | none => none
         | some (ss, r3) => some (s :: ss, r3)
       | ']' :: r2 => some ([s], r2)
       | _ => none)
  | _, _ => none

/-- `json.dumps(msg.to_dict())`: one record line (without the trailing
newline), fields in a fixed order. -/
def dumpsMsg (m : Message) : List Char :=
  "\x7b\"role\":\"".data ++
  (roleStr m.role ++
  ("\",\"content\":\"".data ++
  (escapeStr m.content.data ++
  ('"' :: (",\"pinned\":".data ++
  (boolStr m.pinned ++
  (",\"hide\":".data ++
  (boolStr m.hide ++
  (",\"quiet\":".data ++
  (boolStr m.quiet ++
  (",\"timestamp\":\"".data ++
  (escapeStr m.timestamp.data ++
  ('"' :: (",\"files\":[".data ++
  (printFilesBody (m.files.map String.data) ++
  ['\x7d'])))))))))))))))

/-- `Message(**json.loads(line))`: parse one record line; `none` models the
fatal error raised on a malformed record. -/
def loadsMsg (l : List Char) : Option Message :=
  match dropLit "\x7b\"role\":\"".data l with
  | none => none
  | some l1 =>
  match parseRole l1 with
  | none => none
  | some (role, l2) =>
  match dropLit "\",\"content\":\"".data l2 with
  | none => none
  | some l3 =>
  match parseQuotedAux l3 with
  | none => none
  | some (content, l4) =>
  match dropLit ",\"pinned\":".data l4 with
  | none => none
  | some l5 =>
  match parseBool l5 with
  | none => none
  | some (pinned, l6) =>
  match dropLit ",\"hide\":".data l6 with
  | none => none
  | some l7 =>
  match parseBool l7 with
  | none => none
  | some (hide, l8) =>
  match dropLit ",\"quiet\":".data l8 with
  | none => none
  | some l9 =>
  match parseBool l9 with
  | none => none
  | some (quiet, l10) =>
  match dropLit ",\"timestamp\":\"".data l10 with
  | none => none
  | some l11 =>
  match parseQuotedAux l11 with
  | none => none
  | some (ts, l12) =>
  match dropLit ",\"files\":[".data l12 with
  | none => none
  | some l13 =>
  match parseFilesAux l13.length l13 with
  | none => none
  | some (files, l14) =>
  match l14 with
  | ['\x7d'] =>
    some { role := role, content := String.mk content, pinned := pinned,
           hide := hide, quiet := quiet, timestamp := String.mk ts,
           files := files.map String.mk }
  | _ => none

/-- `write_log` in list mode (logmanager.py lines 163-167): overwrite the
file with one record plus newline per message. -/
def write_log (log : List Message) : List Char :=
  (log.map fun m => dumpsMsg m ++ ['\n']).flatten

/-- Split file contents into lines (newline separators removed), as
`file.readlines()` followed by per-line JSON decoding sees them. -/
def splitLines : List Char → List (List Char)
  | [] => []
  | c :: rest =>
    if c = '\n' then [] :: splitLines rest
    else
      match splitLines rest with
      | [] => [[c]]
      | l :: ls => (c :: l) :: ls

/-- The file-content part of `LogManager.load` (logmanager.py lines
120-124): decode every line; `if not msgs: msgs = initial_msgs`. -/
def loadLog (initialMsgs : List Message) (file : List Char) :
    Option (List Message) :=
  match (splitLines file).mapM loadsMsg with
  | none => none
  | some [] => some initialMsgs
  | some (m :: rest) => some (m :: rest)

/-! ## Concrete instances used by counterexamples and witnesses -/

/-- A log whose tail is an `.undo` command sentinel (C3 counterexample). -/
def undoExLog : List Message :=
  [{ role := Role.user, content := "hi" }, { role := Role.user, content := ".undo" }]

/-- Concrete manager state used by manager-level witnesses. -/
def exState : LMState :=
  { log := [{ role := Role.user, content := "hi" },
            { role := Role.assistant, content := "hello there" }],
    logfile := ["logs", "conv", "conversation.jsonl"] }

/-- Concrete filesystem holding `exState`'s messages at its backing path. -/
def exFS : FS := fun p => if p = exState.logfile then some exState.log else none

/-- The state `exState` after `undo 1` (used to instantiate witnesses). -/
def exStateUndone : LMState :=
  { log := [{ role := Role.user, content := "hi" }],
    logfile := ["logs", "conv", "conversation.jsonl"] }

/-- Manager state whose in-memory sequence has diverged from the backing
file (as after an in-memory `undo`): used against the fork claim. -/
def forkExState : LMState :=
  { log := [{ role := Role.user, content := "hi" }], logfile := ["c.log"] }

/-- Backing file for `forkExState`, still holding the pre-`undo` messages. -/
def forkExFS : FS := fun p =>
  if p = ["c.log"] then
    some [{ role := Role.user, content := "hi" },
          { role := Role.assistant, content := "welcome" }]
  else none

/-- A minimal environment for instantiating witnesses: empty directory, no
commands, legacy (non-fresh) mode, no browser tool. -/
def trivEnv : Env :=
  { existsFile := fun _ => false, textFile := fun _ => none, cwd := [],
    commands := [], fresh := false, browser := false,
    urlRead := fun _ => none, isUrl := fun _ => false, home := "/root",
    normFile := fun p => p }

/-- The initial message substituted by `load` on an empty file (C4). -/
def c4InitMsg : Message :=
  { role := Role.system, content := "You are a helpful assistant." }

/-- A message exercising escapes and unicode in the round-trip (C4). -/
def c4WitMsg : Message :=
  { role := Role.assistant,
    content := "line1\nline2 \"quoted\" back\\slash ünïcode",
    pinned := true, timestamp := "2024-05-06T07:08:09",
    files := ["notes.txt"] }

/-- An environment in which `./notes.txt` is an existing readable text file
containing `hello` (C6 witness). -/
def c6Env : Env :=
  { existsFile := fun p => p == "./notes.txt",
    textFile := fun p => if p = "./notes.txt" then some "hello" else none,
    cwd := [], commands := [], fresh := false, browser := false,
    urlRead := fun _ => none, isUrl := fun _ => false, home := "/root",
    normFile := fun p => p }

/-- The spec's content-inclusion test message: `"see ./notes.txt"`. -/
def c6Msg : Message := { role := Role.user, content := "see ./notes.txt" }

/-- A log whose last message is the `"Interrupted"` sentinel (C1
counterexample input). -/
def c1ExLog : List Message :=
  [{ role := Role.user, content := "hi" },
   { role := Role.system, content := "Interrupted" }]

/-- A log ending in an ordinary user message (resume case, used by
witnesses). -/
def c1WitLog : List Message := [{ role := Role.user, content := "hi" }]

/-! # Helper lemmas -/

theorem popN_error_of_short (n : Nat) :
    ∀ l : List Message, l.length < n → popN n l = Except.error () := by
  induction n with
  | zero => intro l h; exact absurd h (Nat.not_lt_zero _)
  | succ n ih =>
    intro l h
    cases l with
    | nil => simp [popN]
    | cons a l =>
      have hlt : (a :: l).dropLast.length < n := by
        simpa [List.length_dropLast] using Nat.lt_of_succ_lt_succ h
      simp [popN, ih _ hlt]

theorem dropUndoSentinel_of_not_cmd (log : List Message) (m : Message)
    (hlast : log.getLast? = some m) (hcmd : isUndoCmd m = false) :
    dropUndoSentinel log = log := by
  simp [dropUndoSentinel, hlast, hcmd]

theorem allWords_no_dash : ∀ w ∈ actions ++ adjectives ++ nouns, '-' ∉ w := by
  decide

theorem splitDash_append_cons (a : List Char) (hnd : '-' ∉ a) (r : List Char) :
    splitDash (a ++ '-' :: r) = a :: splitDash r := by
  induction a with
  | nil => simp [splitDash]
  | cons c a ih =>
    have hc : ¬(c = '-') := by rintro rfl; exact hnd (by simp)
    have ha : '-' ∉ a := fun h => hnd (by simp [h])
    simp only [List.cons_append, splitDash, if_neg hc, List.append_eq, ih ha]

theorem splitDash_of_no_dash (a : List Char) (hnd : '-' ∉ a) :
    splitDash a = [a] := by
  induction a with
  | nil => rfl
  | cons c a ih =>
    have hc : ¬(c = '-') := by rintro rfl; exact hnd (by simp)
    have ha : '-' ∉ a := fun h => hnd (by simp [h])
    simp only [splitDash, if_neg hc, ih ha]

theorem str_mk_data (s : String) : String.mk s.data = s := by
  cases s
  rfl

theorem str_append_ne_empty_right (a b : String) (hb : b ≠ "") :
    a ++ b ≠ "" := by
  intro h
  apply hb
  have hd := congrArg String.data h
  rw [String.data_append] at hd
  have hbd : b.data = [] := (List.append_eq_nil.mp hd).2
  have := congrArg String.mk hbd
  rwa [str_mk_data] at this

theorem no_nl_append {a b : List Char} (ha : '\n' ∉ a) (hb : '\n' ∉ b) :
    '\n' ∉ a ++ b := by
  intro h
  rcases List.mem_append.mp h with h | h
  · exact ha h
  · exact hb h

theorem no_nl_cons {c : Char} {b : List Char} (hc : ¬('\n' = c))
    (hb : '\n' ∉ b) : '\n' ∉ c :: b := by
  intro h
  rcases List.mem_cons.mp h with h | h
  · exact hc h
  · exact hb h

theorem dropLit_self (lit : List Char) : ∀ rest, dropLit lit (lit ++ rest) = some rest := by
  induction lit with
  | nil => intro rest; rfl
  | cons c lit ih => intro rest; simp [dropLit, ih]

theorem parseQuoted_escape (s : List Char) :
    ∀ rest, parseQuotedAux (escapeStr s ++ ('"' :: rest)) = some (s, rest) := by
  induction s with
  | nil =>
    intro rest
    simp only [escapeStr, List.nil_append]
    rw [parseQuotedAux.eq_def]
    simp
  | cons c s ih =>
    intro rest
    by_cases h1 : c = '"'
    · subst h1
      have he : escapeStr ('"' :: s) ++ '"' :: rest =
          '\\' :: '"' :: (escapeStr s ++ '"' :: rest) := by
        simp [escapeStr, escChar]
      rw [he, parseQuotedAux.eq_def]
      simp [unescChar, ih]
    · by_cases h2 : c = '\\'
      · subst h2
        have he : escapeStr ('\\' :: s) ++ '"' :: rest =
            '\\' :: '\\' :: (escapeStr s ++ '"' :: rest) := by
          simp [escapeStr, escChar]
        rw [he, parseQuotedAux.eq_def]
        simp [unescChar, ih]
      · by_cases h3 : c = '\n'
        · subst h3
          have he : escapeStr ('\n' :: s) ++ '"' :: rest =
              '\\' :: 'n' :: (escapeStr s ++ '"' :: rest) := by
            simp [escapeStr, escChar]
          rw [he, parseQuotedAux.eq_def]
          simp [unescChar, ih]
        · have he : escapeStr (c :: s) ++ '"' :: rest =
              c :: (escapeStr s ++ '"' :: rest) := by
            simp [escapeStr, escChar, h1, h2, h3]
          rw [he, parseQuotedAux.eq_def]
          simp [h1, h2, h3, ih]

theorem parseRole_roleStr (r : Role) (rest : List Char) :
    parseRole (roleStr r ++ rest) = some (r, rest) := by
  cases r <;> rfl

theorem parseBool_boolStr (b : Bool) (rest : List Char) :
    parseBool (boolStr b ++ rest) = some (b, rest) := by
  cases b <;> rfl

theorem printFilesBody_length (fs : List (List Char)) :
    fs.length ≤ (printFilesBody fs).length := by
  induction fs with
  | nil => simp [printFilesBody]
  | cons f fs ih =>
    simp only [printFilesBody, List.length_cons, List.length_append]
    omega

theorem parseFiles_print (fs : List (List Char)) :
    ∀ fuel rest, fs.length ≤ fuel →
      parseFilesAux fuel (printFilesBody fs ++ rest) = some (fs, rest) := by
  induction fs with
  | nil =>
    intro fuel rest h
    cases fuel <;> rfl
  | cons f fs ih =>
    intro fuel rest h
    cases fuel with
    | zero => simp at h
    | succ fuel =>
      have hfs : fs.length ≤ fuel := by
        simpa using Nat.le_of_succ_le_succ (by simpa using h)
      cases fs with
      | nil =>
        have hp : printFilesBody [f] ++ rest =
            '"' :: (escapeStr f ++ ('"' :: (']' :: rest))) := by
          show '"' :: ((escapeStr f ++ ['"', ']']) ++ rest) = _
          rw [List.append_assoc]
          rfl
        rw [hp]
        have hq := parseQuoted_escape f (']' :: rest)
        simp [parseFilesAux, hq]
      | cons g u =>
        have hp : printFilesBody (f :: g :: u) ++ rest =
            '"' :: (escapeStr f ++
              ('"' :: (',' :: (printFilesBody (g :: u) ++ rest)))) := by
          show '"' :: ((escapeStr f ++
            ('"' :: (',' :: printFilesBody (g :: u)))) ++ rest) = _
          rw [List.append_assoc]
          rfl
        rw [hp]
        have hq := parseQuoted_escape f
          (',' :: (printFilesBody (g :: u) ++ rest))
        have hrec := ih fuel rest hfs
        simp [parseFilesAux, hq, hrec]

theorem map_mk_map_data (fs : List String) :
    (fs.map String.data).map String.mk = fs := by
  induction fs with
  | nil => rfl
  | cons a t ih => simp [str_mk_data, ih]

theorem loadsMsg_dumpsMsg (m : Message) : loadsMsg (dumpsMsg m) = some m := by
  obtain ⟨role, content, pinned, hide, quiet, ts, files⟩ := m
  obtain ⟨cl⟩ := content
  obtain ⟨tl⟩ := ts
  have hlen : (files.map String.data).length ≤
      (printFilesBody (files.map String.data) ++ ['\x7d']).length := by
    rw [List.length_append]
    exact le_trans (printFilesBody_length _) (Nat.le_add_right _ _)
  have hfiles := parseFiles_print (files.map String.data)
    ((printFilesBody (files.map String.data) ++ ['\x7d']).length)
    ['\x7d'] hlen
  simp only [dumpsMsg, loadsMsg, dropLit_self, parseRole_roleStr,
    parseQuoted_escape, parseBool_boolStr, hfiles]
  simp [Function.comp_def, str_mk_data]

theorem escapeStr_no_newline (s : List Char) : '\n' ∉ escapeStr s := by
  induction s with
  | nil => simp [escapeStr]
  | cons c s ih =>
    simp only [escapeStr]
    refine no_nl_append ?_ ih
    unfold escChar
    split_ifs with h1 h2 h3
    · exact fun h => absurd h (by decide)
    · exact fun h => absurd h (by decide)
    · exact fun h => absurd h (by decide)
    · intro h
      rcases List.mem_cons.mp h with h | h
      · exact h3 h.symm
      · simp at h

theorem printFilesBody_no_newline (fs : List (List Char)) :
    '\n' ∉ printFilesBody fs := by
  induction fs with
  | nil => decide
  | cons f fs ih =>
    refine no_nl_cons (by decide)
      (no_nl_append (escapeStr_no_newline f) (no_nl_cons (by decide)
        (no_nl_append ?_ ih)))
    split_ifs <;> decide

theorem dumpsMsg_no_newline (m : Message) : '\n' ∉ dumpsMsg m := by
  have hr : '\n' ∉ roleStr m.role := by cases m.role <;> decide
  have hp : '\n' ∉ boolStr m.pinned := by cases m.pinned <;> decide
  have hh : '\n' ∉ boolStr m.hide := by cases m.hide <;> decide
  have hq : '\n' ∉ boolStr m.quiet := by cases m.quiet <;> decide
  have hc := escapeStr_no_newline m.content.data
  have ht := escapeStr_no_newline m.timestamp.data
  have hf := printFilesBody_no_newline (m.files.map String.data)
  unfold dumpsMsg
  exact no_nl_append (by decide) (no_nl_append hr (no_nl_append (by decide)
    (no_nl_append hc (no_nl_cons (by decide) (no_nl_append (by decide)
    (no_nl_append hp (no_nl_append (by decide) (no_nl_append hh
    (no_nl_append (by decide) (no_nl_append hq (no_nl_append (by decide)
    (no_nl_append ht (no_nl_cons (by decide) (no_nl_append (by decide)
    (no_nl_append hf (by decide))))))))))))))))

theorem splitLines_append_line (line : List Char) (hnl : '\n' ∉ line) :
    ∀ rest, splitLines (line ++ '\n' :: rest) = line :: splitLines rest := by
  induction line with
  | nil => intro rest; simp [splitLines]
  | cons c line ih =>
    intro rest
    have hc : ¬(c = '\n') := fun h => hnl (by simp [h])
    have hline : '\n' ∉ line := fun h => hnl (by simp [h])
    simp only [List.cons_append, splitLines, if_neg hc, List.append_eq,
      ih hline]

theorem splitLines_write_log (log : List Message) :
    splitLines (write_log log) = log.map dumpsMsg := by
  induction log with
  | nil => rfl
  | cons m log ih =>
    have h1 : write_log (m :: log) = dumpsMsg m ++ ('\n' :: write_log log) := by
      simp [write_log, List.append_assoc]
    rw [h1, splitLines_append_line _ (dumpsMsg_no_newline m), ih, List.map_cons]

theorem mapM_loads_dumps (log : List Message) :
    (log.map dumpsMsg).mapM loadsMsg = some log := by
  induction log with
  | nil => rfl
  | cons m log ih =>
    rw [List.map_cons, List.mapM_cons, loadsMsg_dumpsMsg, ih]
    rfl

/-! # Claim theorems -/

/-! ## C4 -/

/-- C4 counterexample: writing the *empty* sequence and reloading does not
reproduce it — `LogManager.load` substitutes the caller-supplied initial
messages when the file holds no records (`if not msgs: msgs =
initial_msgs`). -/
theorem write_load_empty_counterexample :
    loadLog [c4InitMsg] (write_log []) = some [c4InitMsg] ∧
    some [c4InitMsg] ≠ some ([] : List Message) := by
  constructor
  · rfl
  · decide

/-- Claim C4, amended: for every *non-empty* sequence of messages —
including contents with embedded newlines, quotes, backslashes and other
unicode — writing the sequence to the log file and reloading yields an
equal sequence, order- and field-preserving; reloading the file written
from the empty sequence yields the caller-supplied initial messages
instead. -/
theorem write_load_roundtrip (initialMsgs log : List Message) :
    (log ≠ [] → loadLog initialMsgs (write_log log) = some log) ∧
    loadLog initialMsgs (write_log []) = some initialMsgs := by
  refine ⟨fun hne => ?_, rfl⟩
  unfold loadLog
  rw [splitLines_write_log, mapM_loads_dumps]
  cases log with
  | nil => exact absurd rfl hne
  | cons m log => rfl

/-- Witness for `write_load_roundtrip` on a one-message log whose content
holds newlines, quotes, a backslash and non-ASCII characters. -/
theorem write_load_roundtrip_witness :
    loadLog [c4InitMsg] (write_log [c4WitMsg]) = some [c4WitMsg] :=
  (write_load_roundtrip [c4InitMsg] [c4WitMsg]).1 (by decide)

/-! ## C6 -/

/-- Claim C6: on the spec's content-inclusion test (`"see ./notes.txt"`
with `./notes.txt` an existing readable text file containing `hello`), the
parser returns a message whose content is the original content followed at
the end by the fenced code block labelled `./notes.txt` with body `hello`.
The term `(inclStep env ("", []) "see").1` is whatever the preceding token
`see` contributes (empty unless the environment resolves `see` as a
readable file). -/
theorem include_paths_inlines_file (env : Env) (m : Message)
    (_hrole : m.role = Role.user)
    (hcont : m.content = "see ./notes.txt")
    (hfresh : env.fresh = false)
    (hex : env.existsFile "./notes.txt" = true)
    (htxt : env.textFile "./notes.txt" = some "hello") :
    (_include_paths env m).content =
      m.content ++ (inclStep env ("", []) "see").1 ++ "\n\n" ++
        codeblock "./notes.txt" "hello" := by
  have htok : tokenize "see ./notes.txt" = ["see", "./notes.txt"] := by decide
  have hcmd : isCommandPrefixed env "./notes.txt" = false := by
    unfold isCommandPrefixed
    rw [List.any_eq_false]
    intro c hc
    rw [String.data_append]
    simp [List.isPrefixOf]
  have hexp : expanduser env "./notes.txt" = "./notes.txt" := by
    unfold expanduser
    rw [if_neg (by decide), if_neg (by decide)]
  have hpp : _parse_prompt env 1 "./notes.txt" =
      some (codeblock "./notes.txt" "hello") := by
    unfold _parse_prompt
    simp [hcmd, hexp, hex, htxt]
  have htr : truthy (_parse_prompt env 1 "./notes.txt") = true := by
    rw [hpp]
    decide
  have hcand : isCandidate env "./notes.txt" = true := by
    unfold isCandidate
    rw [show ("./".data.isPrefixOf "./notes.txt".data) = true from rfl]
    simp
  have hstep2 : ∀ acc : String × List String,
      inclStep env acc "./notes.txt" =
        (acc.1 ++ "\n\n" ++ codeblock "./notes.txt" "hello", acc.2) := by
    intro acc
    unfold inclStep
    rw [if_pos hcand, hfresh, htr]
    rw [if_pos (show (!false && true) = true by decide), hpp]
    rfl
  have hfold : (tokenize m.content).foldl (inclStep env) ("", []) =
      ((inclStep env ("", []) "see").1 ++ "\n\n" ++
        codeblock "./notes.txt" "hello", (inclStep env ("", []) "see").2) := by
    rw [hcont, htok]
    simp only [List.foldl_cons, List.foldl_nil]
    rw [hstep2]
  unfold _include_paths
  rw [hfold]
  rw [if_neg (str_append_ne_empty_right _ _ (by decide))]
  split_ifs <;> simp [String.append_assoc]

/-- Witness for `include_paths_inlines_file` in the concrete environment
where only `./notes.txt` exists. -/
theorem include_paths_inlines_file_witness :
    (_include_paths c6Env c6Msg).content =
      c6Msg.content ++ (inclStep c6Env ("", []) "see").1 ++ "\n\n" ++
        codeblock "./notes.txt" "hello" :=
  include_paths_inlines_file c6Env c6Msg rfl rfl rfl (by decide) (by decide)

/-! ## C10 -/

/-- Claim C10: every string produced by `generate_name` is accepted by
`is_generated_name` — the three chosen words are dash-free, so the name has
exactly two dashes and splits back into the three list words. -/
theorem generated_name_recognized (i : Fin actions.length)
    (j : Fin adjectives.length) (k : Fin nouns.length) :
    is_generated_name (generate_name i j k) = true := by
  have hma : actions.get i ∈ actions ++ adjectives ++ nouns :=
    List.mem_append_left _ (List.mem_append_left _ (List.get_mem _ i.1 i.2))
  have hmb : adjectives.get j ∈ actions ++ adjectives ++ nouns :=
    List.mem_append_left _ (List.mem_append_right _ (List.get_mem _ j.1 j.2))
  have hmc : nouns.get k ∈ actions ++ adjectives ++ nouns :=
    List.mem_append_right _ (List.get_mem _ k.1 k.2)
  have h0a : (actions.get i).count '-' = 0 :=
    List.count_eq_zero.mpr (allWords_no_dash _ hma)
  have h0b : (adjectives.get j).count '-' = 0 :=
    List.count_eq_zero.mpr (allWords_no_dash _ hmb)
  have h0c : (nouns.get k).count '-' = 0 :=
    List.count_eq_zero.mpr (allWords_no_dash _ hmc)
  have hsplit : splitDash (generate_name i j k) =
      [actions.get i, adjectives.get j, nouns.get k] := by
    unfold generate_name
    rw [splitDash_append_cons _ (allWords_no_dash _ hma),
        splitDash_append_cons _ (allWords_no_dash _ hmb),
        splitDash_of_no_dash _ (allWords_no_dash _ hmc)]
  have hcnt : (generate_name i j k).count '-' = 2 := by
    unfold generate_name
    simp only [List.get_eq_getElem] at h0a h0b h0c
    simp [List.count_append, List.count_cons, h0a, h0b, h0c]
  simp [is_generated_name, hcnt, hsplit, hma, hmb, hmc]

/-! ## C3 -/

/-- C3 counterexample: on the two-message log whose last message is the
`.undo` command sentinel, `undo 1` removes *two* messages (the sentinel
discard plus the popped message), leaving length `0`, not `N - 1 = 1` as
the claim states for every log of length `N ≥ 1`. -/
theorem undo_trailing_sentinel_counterexample :
    undoExLog.length = 2 ∧ undo 1 undoExLog = Except.ok ([], false) ∧
    ([] : List Message).length ≠ undoExLog.length - 1 := by decide

/-- Claim C3, amended: for every log of length `N ≥ 1` whose last message's
content does not start with `.undo`, `undo 1` leaves the log with length
`N - 1` (and prints no "nothing to undo" notice); and `undo` on an empty
log leaves it empty and reports that there is nothing to undo. -/
theorem undo_one_shortens_by_one (log : List Message) (m : Message)
    (hlast : log.getLast? = some m) (hcmd : isUndoCmd m = false) :
    (undo 1 log = Except.ok (log.dropLast, false) ∧
      log.dropLast.length = log.length - 1) ∧
    ∀ k, undo k ([] : List Message) = Except.ok ([], true) := by
  refine ⟨⟨?_, List.length_dropLast log⟩, fun k => by simp [undo, dropUndoSentinel]⟩
  have hne : log ≠ [] := by
    intro h; rw [h] at hlast; simp at hlast
  cases log with
  | nil => exact absurd rfl hne
  | cons a l =>
    simp only [undo, dropUndoSentinel_of_not_cmd _ _ hlast hcmd]
    simp [popN, Except.map]

/-- Witness for `undo_one_shortens_by_one` at a concrete one-message log. -/
theorem undo_one_shortens_by_one_witness :
    (undo 1 [({ role := Role.user, content := "hi" } : Message)] =
        Except.ok ([], false) ∧
      ([({ role := Role.user, content := "hi" } : Message)].dropLast.length =
        [({ role := Role.user, content := "hi" } : Message)].length - 1)) ∧
    ∀ k, undo k ([] : List Message) = Except.ok ([], true) :=
  undo_one_shortens_by_one _ _ rfl (by decide)

/-! ## C9 -/

/-- Claim C9: when the log is non-empty after discarding a trailing `.undo`
sentinel but then holds fewer than `n` messages, `undo n` raises
`IndexError` (pop from an empty list) instead of stopping at the empty
log. -/
theorem undo_overflow_index_error (n : Nat) (log : List Message)
    (hne : dropUndoSentinel log ≠ [])
    (hlt : (dropUndoSentinel log).length < n) :
    undo n log = Except.error () := by
  simp only [undo]
  rw [if_neg (by simpa [List.isEmpty_iff] using hne)]
  rw [popN_error_of_short n _ hlt]
  rfl

/-- Witness for `undo_overflow_index_error`: `undo 2` on a one-message log. -/
theorem undo_overflow_index_error_witness :
    undo 2 [({ role := Role.user, content := "hi" } : Message)] =
      Except.error () :=
  undo_overflow_index_error 2 _ (by decide) (by decide)

/-! ## C8 -/

/-- Claim C8: `undo` mutates only the in-memory sequence — the filesystem is
returned untouched (so the backing file still holds the removed messages),
and the file agrees with the in-memory sequence again at the next
`append`. -/
theorem undo_frame_file_untouched (n : Nat) (s : LMState) (fs : FS)
    (s2 : LMState) (fs2 : FS)
    (h : undoLM n s fs = Except.ok (s2, fs2)) :
    fs2 = fs ∧ s2.logfile = s.logfile ∧ fs2 s.logfile = fs s.logfile ∧
    ∀ m : Message,
      ((appendLM m s2 fs2).2) ((appendLM m s2 fs2).1.logfile) =
        some ((appendLM m s2 fs2).1.log) := by
  have hparts : fs2 = fs ∧ s2.logfile = s.logfile := by
    simp only [undoLM] at h
    cases hu : undo n s.log with
    | error e => simp [hu, Except.map] at h
    | ok r =>
      simp only [hu, Except.map, Except.ok.injEq, Prod.mk.injEq] at h
      exact ⟨h.2.symm, by rw [← h.1]⟩
  refine ⟨hparts.1, hparts.2, by rw [hparts.1], fun m => ?_⟩
  simp [appendLM, writeFS]

/-! ## C1 -/

/-- C1 counterexample: the claim says a log whose last message is the
`"Interrupted"` sentinel "demands a response", so a step proceeds directly
to response generation without requesting input; but on such a log the
source condition *requests input* (`stepAsksForInput = true`). -/
theorem step_input_claim_counterexample :
    lastDemandsResponseClaim c1ExLog = true ∧ stepAsksForInput c1ExLog = true := by
  decide

/-- Claim C1, amended: a step requests user input exactly when the last
message does *not* demand a response, where demands-a-response holds when
the last message exists with role `user` or `system`, its content is not
`"Interrupted"`, it is not pinned, and a user-role message occurs in the
log; when it holds, the step proceeds directly to response generation
(`stepGen`) without the inquiry. -/
theorem step_input_decision (log : List Message) :
    (stepAsksForInput log = !(lastDemandsResponse log)) ∧
    ∀ (env : Env) (prepare : List Message → List Message)
      (reply : List Message → Except Unit Message)
      (toolExec : Message → List Message) (inquiry : String),
      lastDemandsResponse log = true →
        step env prepare reply toolExec inquiry log =
          stepGen prepare reply toolExec log := by
  have hb : stepAsksForInput log = !(lastDemandsResponse log) := by
    unfold stepAsksForInput lastDemandsResponse
    cases hl : log.getLast? with
    | none => rfl
    | some m =>
      cases hr : m.role <;>
        cases hc : (m.content == "Interrupted") <;>
          cases hp : m.pinned <;>
            cases hu : (log.any fun x => x.role == Role.user) <;>
              simp [hr, hc, hp, hu]
  refine ⟨hb, fun env prepare reply toolExec inquiry h => ?_⟩
  unfold step
  rw [hb, h]
  rfl

/-! ## C5 -/

/-- C5 counterexample: `fork("new")` on a state whose memory has diverged
from its backing file neither writes the new file (`new.log` stays absent)
nor leaves the old file untouched (it is overwritten with the in-memory
sequence). -/
theorem fork_claim_counterexample :
    (forkLM "new" forkExState forkExFS).2 ["new.log"] = none ∧
    (forkLM "new" forkExState forkExFS).2 forkExState.logfile ≠
      forkExFS forkExState.logfile := by
  constructor
  · rfl
  · decide

/-- Claim C5, amended: `fork(name)` writes the current in-memory sequence to
the *old* backing file (overwriting it), does not touch the new file
derived from `name`, and redirects all future writes there — the next
append persists the in-memory sequence at the new path. -/
theorem fork_writes_old_and_redirects (name : String) (s : LMState) (fs : FS) :
    (forkLM name s fs).1.log = s.log ∧
    (forkLM name s fs).1.logfile = s.logfile.dropLast ++ [name ++ ".log"] ∧
    (forkLM name s fs).2 s.logfile = some s.log ∧
    ((forkLM name s fs).1.logfile ≠ s.logfile →
      (forkLM name s fs).2 (forkLM name s fs).1.logfile =
        fs (forkLM name s fs).1.logfile) ∧
    ∀ m : Message,
      ((appendLM m (forkLM name s fs).1 (forkLM name s fs).2).2)
          ((forkLM name s fs).1.logfile) =
        some (s.log ++ [m]) := by
  refine ⟨rfl, rfl, by simp [forkLM, writeFS], fun h => ?_, fun m => ?_⟩
  · simp only [forkLM, writeFS]
    rw [if_neg (by simpa [forkLM] using h)]
  · simp [forkLM, appendLM, writeFS]

/-- Witness for `fork_writes_old_and_redirects`: on the concrete state the
new backing file is untouched by the fork itself. -/
theorem fork_writes_old_and_redirects_witness :
    (forkLM "new" forkExState forkExFS).2
        (forkLM "new" forkExState forkExFS).1.logfile =
      forkExFS (forkLM "new" forkExState forkExFS).1.logfile :=
  (fork_writes_old_and_redirects "new" forkExState forkExFS).2.2.2.1 (by decide)

/-! ## C7 -/

/-- C7 counterexample: the token `./a??` loses *both* trailing question
marks under the source's `word.rstrip("?")`, whereas the claim says it
keeps all but the last (`./a?`). -/
theorem token_question_mark_counterexample :
    normToken "./a??".data = "./a".data ∧ normToken "./a??".data ≠ "./a?".data := by
  decide

/-- Claim C7, amended: token normalisation strips the surrounding backticks
and *all* trailing question marks — appending any number of question marks
to a token (with no trailing backtick) does not change its normalisation. -/
theorem token_strips_all_question_marks (w : List Char) (n : Nat)
    (hlast : w.getLast? ≠ some bt) :
    normToken (w ++ List.replicate n '?') = normToken w := by
  cases n with
  | zero => simp
  | succ m =>
    have hdropQrep : ∀ k,
        (List.replicate k '?').dropWhile (fun c => decide (c = '?')) = [] := by
      intro k
      induction k with
      | zero => rfl
      | succ k ih =>
        rw [List.replicate_succ, List.dropWhile_cons, if_pos (by decide), ih]
    have hdropBrep : ∀ k,
        (List.replicate k '?').dropWhile (fun c => decide (c = bt)) =
          List.replicate k '?' := by
      intro k
      cases k with
      | zero => rfl
      | succ k => rw [List.replicate_succ, List.dropWhile_cons, if_neg (by decide)]
    have A1 : (w ++ List.replicate (m + 1) '?').dropWhile
          (fun c => decide (c = bt)) =
        w.dropWhile (fun c => decide (c = bt)) ++ List.replicate (m + 1) '?' := by
      rw [List.dropWhile_append]
      split_ifs with h
      · rw [hdropBrep, List.isEmpty_iff.mp h, List.nil_append]
      · rfl
    have A2 : stripBackticks (w ++ List.replicate (m + 1) '?') =
        w.dropWhile (fun c => decide (c = bt)) ++ List.replicate (m + 1) '?' := by
      unfold stripBackticks
      rw [A1, List.reverse_append, List.reverse_replicate, List.dropWhile_append,
        if_neg (by rw [hdropBrep]; simp [List.isEmpty_replicate]),
        hdropBrep, List.reverse_append, List.reverse_replicate, List.reverse_reverse]
    have B : rstripQs (w.dropWhile (fun c => decide (c = bt)) ++
          List.replicate (m + 1) '?') =
        rstripQs (w.dropWhile (fun c => decide (c = bt))) := by
      unfold rstripQs
      rw [List.reverse_append, List.reverse_replicate, List.dropWhile_append,
        if_pos (by rw [hdropQrep]; rfl)]
    have D : (w.dropWhile (fun c => decide (c = bt))).reverse.dropWhile
          (fun c => decide (c = bt)) =
        (w.dropWhile (fun c => decide (c = bt))).reverse := by
      cases hxr : (w.dropWhile (fun c => decide (c = bt))).reverse with
      | nil => rfl
      | cons h t =>
        have hh : (w.dropWhile (fun c => decide (c = bt))).getLast? = some h := by
          rw [← List.head?_reverse, hxr]
          rfl
        have hw : w.getLast? = some h := by
          conv_lhs => rw [← List.takeWhile_append_dropWhile
            (fun c => decide (c = bt)) w]
          rw [List.getLast?_append, hh]
          rfl
        have hne : ¬(h = bt) := fun he => hlast (by rw [hw, he])
        rw [List.dropWhile_cons, if_neg (by simpa using hne)]
    have C : stripBackticks w = w.dropWhile (fun c => decide (c = bt)) := by
      unfold stripBackticks
      rw [D, List.reverse_reverse]
    unfold normToken
    rw [A2, B, C]

/-- Witness for `token_strips_all_question_marks` at the concrete token
`./a` with two appended question marks. -/
theorem token_strips_all_question_marks_witness :
    normToken ("./a".data ++ List.replicate 2 '?') = normToken "./a".data :=
  token_strips_all_question_marks "./a".data 2 (by decide)

/-- Witness for `step_input_decision`: resuming a log whose last message has
role `user` generates a response without requesting input. -/
theorem step_input_decision_witness :
    step trivEnv (fun l => l) (fun _ => Except.error ()) (fun _ => []) "q"
        c1WitLog =
      stepGen (fun l => l) (fun _ => Except.error ()) (fun _ => [])
        c1WitLog :=
  (step_input_decision c1WitLog).2 trivEnv (fun l => l)
    (fun _ => Except.error ()) (fun _ => []) "q" (by decide)

/-! ## C2 -/

/-- Claim C2: if the model call of a cycle is interrupted
(`KeyboardInterrupt` inside `reply`), the cycle appends exactly one message
— the `"Interrupted"` system sentinel — and no partial assistant response
reaches the log. -/
theorem cycle_interrupt_appends_sentinel (env : Env)
    (prepare : List Message → List Message)
    (reply : List Message → Except Unit Message)
    (toolExec : Message → List Message) (inquiry : String)
    (log : List Message)
    (hin : stepAsksForInput log = false)
    (hint : reply (prepare log) = Except.error ()) :
    cycleOnce env prepare reply toolExec inquiry log =
      log ++ [interruptedMsg] ∧
    (cycleOnce env prepare reply toolExec inquiry log).length =
      log.length + 1 ∧
    ∀ m ∈ (cycleOnce env prepare reply toolExec inquiry log).drop log.length,
      m.role ≠ Role.assistant := by
  have he : cycleOnce env prepare reply toolExec inquiry log =
      log ++ [interruptedMsg] := by
    simp [cycleOnce, step, hin, stepGen, hint]
  refine ⟨he, by simp [he], ?_⟩
  rw [he]
  intro m hm
  rw [List.drop_left] at hm
  have : m = interruptedMsg := by simpa using hm
  subst this
  decide

/-- Witness for `cycle_interrupt_appends_sentinel` at a concrete
interrupted model call. -/
theorem cycle_interrupt_appends_sentinel_witness :
    cycleOnce trivEnv (fun l => l) (fun _ => Except.error ()) (fun _ => [])
        "q" c1WitLog =
      c1WitLog ++ [interruptedMsg] :=
  (cycle_interrupt_appends_sentinel trivEnv (fun l => l)
    (fun _ => Except.error ()) (fun _ => []) "q" c1WitLog (by decide) rfl).1

/-- Witness for `undo_frame_file_untouched` on the concrete manager state. -/
theorem undo_frame_file_untouched_witness :
    exFS = exFS ∧ exStateUndone.logfile = exState.logfile ∧
    exFS exState.logfile = exFS exState.logfile ∧
    ∀ m : Message,
      ((appendLM m exStateUndone exFS).2)
          ((appendLM m exStateUndone exFS).1.logfile) =
        some ((appendLM m exStateUndone exFS).1.log) :=
  undo_frame_file_untouched 1 exState exFS exStateUndone exFS rfl

end Gptme
